import Mathlib

/-!
Verification development for the cache-cleaner program (`src/cache.py`).

The program is embedded shallowly:
* filesystem paths are lists of name segments (`FsPath`);
* the operating-system surface the scanner consults (`exists`, `iterdir`,
  `is_dir`, the recursive size probe `get_size`, and `Path.resolve`) is a
  record of functions `FS`, so that theorems quantify over every filesystem;
* the persisted history file is a parsed-JSON value (`HistoryContent`);
* interactive confirmation and the wall clock are explicit parameters;
* the unbounded Python recursion of `scan_dir` is driven by an explicit
  fuel argument (the real recursion terminates because filesystems are
  finite; every theorem below holds for every fuel value).
-/

namespace CacheWiped

/-- A filesystem path, as its list of name segments (`Path.parts`). -/
abbrev FsPath := List String

/-- `Path.name`: the last segment (empty for a bare root). -/
def pathName (p : FsPath) : String := (p.getLast?).getD ""

/-- Python `str.upper` (the program only feeds it ASCII unit suffixes). -/
def pyUpper (s : String) : String := ⟨s.data.map Char.toUpper⟩

/-- Python `str.endswith`. -/
def pyEndsWith (s sfx : String) : Bool := List.isSuffixOf sfx.data s.data

/-- Python `str.startswith`. -/
def pyStartsWith (s pre : String) : Bool := List.isPrefixOf pre.data s.data

/-- Python `s[n:]`. -/
def pyDrop (s : String) (n : Nat) : String := ⟨s.data.drop n⟩

/-- Python `s[:-n]` (for `n ≤ len s`). -/
def pyDropRight (s : String) (n : Nat) : String := ⟨s.data.take (s.data.length - n)⟩

/-- Python `s[:n]`. -/
def pyTake (s : String) (n : Nat) : String := ⟨s.data.take n⟩

/-- The operating-system surface used by the scanner and the size probe. -/
structure FS where
  /-- `Path.exists()` (follows symlinks). -/
  existsp : FsPath → Bool
  /-- `Path.is_dir()` (follows symlinks). -/
  isDir : FsPath → Bool
  /-- `list(Path.iterdir())`: child names, or `none` when it raises
      `PermissionError` (src/cache.py lines 115-118). -/
  children : FsPath → Option (List String)
  /-- `get_size` (src/cache.py lines 61-76): the best-effort recursive byte
      size the probe reports for the path. -/
  size : FsPath → Nat
  /-- `Path.resolve()`: canonicalization, eliminating symlinks. -/
  resolve : FsPath → FsPath

/-- `CACHE_TYPES` (src/cache.py lines 21-50), kept in document order:
    category ↦ list of (type name, (patterns, description)). -/
def CACHE_TYPES : List (String × List (String × (List String × String))) :=
  [ ("node",
      [ ("node_modules", (["node_modules"], "Node.js dependencies")),
        ("node_cache", ([".cache", ".parcel-cache", ".next/cache", ".nuxt", ".turbo"], "Build caches")) ]),
    ("python",
      [ ("pycache", (["__pycache__", "*.pyc"], "Python bytecode")),
        ("venv", ([".venv", "venv", ".env", "env"], "Virtual environments")),
        ("pytest", ([".pytest_cache", ".mypy_cache", ".ruff_cache", ".tox"], "Test/lint caches")),
        ("eggs", (["*.egg-info", ".eggs", "dist", "build"], "Build artifacts")) ]),
    ("rust", [ ("target", (["target"], "Rust build output")) ]),
    ("go", [ ("go_build", (["go-build"], "Go build cache")) ]),
    ("java", [ ("gradle", ([".gradle", "build"], "Gradle cache")) ]),
    ("dotnet", [ ("dotnet", (["bin", "obj"], ".NET build output")) ]),
    ("misc",
      [ ("coverage", (["coverage", ".coverage", "htmlcov", ".nyc_output"], "Coverage reports")),
        ("logs", (["*.log", "logs"], "Log files")),
        ("temp", (["tmp", "temp", ".tmp"], "Temp files")),
        ("os", ([".DS_Store", "Thumbs.db"], "OS files")) ]) ]

/-- The per-pattern test (src/cache.py lines 130-133): a pattern starting
    with `*` matches by suffix, any other pattern by exact equality. -/
def patMatches (pattern name : String) : Bool :=
  if pyStartsWith pattern "*" then pyEndsWith name (pyDrop pattern 1)
  else name == pattern

/-- The category filter (src/cache.py line 126): Python
    `categories and cat not in categories`; a `None` or empty filter is
    inactive. -/
def catSkipped (categories : Option (List String)) (cat : String) : Bool :=
  match categories with
  | none => false
  | some cs => !cs.isEmpty && !cs.contains cat

/-- The triple loop with `matched` flag and `break`s
    (src/cache.py lines 124-144): the first category/type, in document
    order, one of whose patterns matches the entry name. -/
def catalogFind (categories : Option (List String)) (name : String) :
    Option (String × String) :=
  CACHE_TYPES.findSome? fun ct =>
    if catSkipped categories ct.1 then none
    else ct.2.findSome? fun ty =>
      if ty.2.1.any fun p => patMatches p name then some (ct.1, ty.1) else none

/-- One scan result (src/cache.py lines 91-96). -/
structure Match where
  path : FsPath
  category : String
  cache_type : String
  size : Nat
deriving DecidableEq, Repr

/-- The mutable state of `scan_dir`'s nested `scan` closure:
    the `matches` accumulator and the `seen` set. -/
structure ScanState where
  /-- the `matches` accumulator (`matches` is a Lean keyword) -/
  found : List Match
  seen : List FsPath
deriving DecidableEq, Repr

/-- `skip_dirs` (src/cache.py line 105). -/
def skip_dirs : List String :=
  [".git", ".hg", ".svn", "$RECYCLE.BIN", "Windows", "Program Files"]

/-- The depth cut-off (src/cache.py line 112): Python
    `max_depth and len(path.parts) - base_depth > max_depth`
    (a `None` or `0` bound is inactive). -/
def depth_exceeded (max_depth : Option Nat) (base_depth : Nat) (p : FsPath) : Bool :=
  match max_depth with
  | none => false
  | some d => !(d == 0) && decide (p.length - base_depth > d)

/-- The body of the entries loop (src/cache.py lines 120-147) for a single
    entry: skip it when already seen; otherwise look it up in the catalog;
    on a match record it (and mark it seen) only when its size reaches the
    threshold, and never descend; on no match descend when it is a
    directory (`scanRec` is the recursive call of the enclosing scan). -/
def scanStep (fs : FS) (categories : Option (List String)) (min_size : Nat)
    (scanRec : FsPath → ScanState → ScanState) (path : FsPath)
    (name : String) (st : ScanState) : ScanState :=
  let entry := path ++ [name]
  if entry ∈ st.seen then st
  else
    match catalogFind categories name with
    | some ct =>
        let size := fs.size entry
        if min_size ≤ size then
          { found := st.found ++ [⟨entry, ct.1, ct.2, size⟩],
            seen := entry :: st.seen }
        else st
    | none => if fs.isDir entry then scanRec entry st else st

/-- The nested `scan` closure of `scan_dir` (src/cache.py lines 107-147),
    with explicit fuel for the recursion. -/
def scanGo (fs : FS) (categories : Option (List String))
    (max_depth : Option Nat) (min_size : Nat) (base_depth : Nat) :
    Nat → FsPath → ScanState → ScanState
  | 0, _, st => st
  | fuel+1, path, st =>
    if path ∈ st.seen then st
    else if !(fs.existsp path) then st
    else if pathName path ∈ skip_dirs then st
    else if depth_exceeded max_depth base_depth path then st
    else
      match fs.children path with
      | none => st
      | some entries =>
          entries.foldl
            (fun st name =>
              scanStep fs categories min_size
                (fun p s => scanGo fs categories max_depth min_size base_depth fuel p s)
                path name st)
            st

/-- `scan_dir` (src/cache.py lines 98-150): resolve the root, run the
    recursive scan from an empty state, and return the matches sorted by
    size descending (Python's `sorted` is stable; so is this insertion
    sort). -/
def scan_dir (fs : FS) (fuel : Nat) (root : FsPath)
    (categories : Option (List String) := none)
    (max_depth : Option Nat := none) (min_size : Nat := 1024*1024) :
    List Match :=
  let rootR := fs.resolve root
  let st := scanGo fs categories max_depth min_size rootR.length fuel rootR ⟨[], []⟩
  st.found.insertionSort (fun a b => b.size ≤ a.size)

/-- `scan_global` (src/cache.py lines 152-163). The registry of global
    cache paths is a parameter (`GLOBAL_CACHES` resolves them from the
    platform and home directory); an entry whose resolution raised is
    `none` and is swallowed by the `except` clause. -/
def scan_global (fs : FS) (globals : List (String × Option FsPath))
    (min_size : Nat := 1024*1024) : List Match :=
  (globals.foldl
    (fun acc g =>
      match g.2 with
      | none => acc
      | some p =>
          if fs.existsp p && min_size ≤ fs.size p then
            acc ++ [⟨p, "global", g.1, fs.size p⟩]
          else acc)
    []).insertionSort (fun a b => b.size ≤ a.size)

/-- A parsed JSON value (what `json.loads` can produce). -/
inductive JSON where
  | null
  | bool (b : Bool)
  | num (n : Int)
  | str (s : String)
  | arr (elems : List JSON)
  | obj (fields : List (String × JSON))
deriving Repr

/-- Python `"key" in data` / `data["key"]` on a parsed JSON object. -/
def jsonGet (fields : List (String × JSON)) (key : String) : Option JSON :=
  (fields.find? fun f => f.1 == key).map fun f => f.2

/-- What the persisted history file holds: it may be missing, hold text
    that `json.loads` rejects, or hold a parsed JSON value. -/
inductive HistoryContent where
  | missing
  | malformed
  | value (j : JSON)
deriving Repr

/-- `load_history` (src/cache.py lines 166-179): missing file or parse
    error gives `[]`; a dict containing the legacy `"sessions"` key gives
    that key's value; a list gives itself; anything else gives `[]`. -/
def load_history : HistoryContent → JSON
  | .missing => .arr []
  | .malformed => .arr []
  | .value j =>
    match j with
    | .obj fields =>
        match jsonGet fields "sessions" with
        | some v => v
        | none => .arr []
    | .arr l => .arr l
    | _ => .arr []

/-- Python `sessions[-100:]` (keep the most recent 100, oldest first
    dropped; a shorter list is kept whole). -/
def takeLast (n : Nat) (l : List JSON) : List JSON := l.drop (l.length - n)

/-- `save_history` (src/cache.py lines 181-183): persists the last 100
    records as a JSON array (`json.dumps` then `json.loads` round-trips). -/
def save_history (sessions : List JSON) : HistoryContent :=
  .value (.arr (takeLast 100 sessions))

/-- The record dict built by `add_session` (src/cache.py lines 187-193);
    `now_iso` stands for `datetime.now().isoformat()`. -/
def session_record (now_iso scan_path : String) (size items : Nat)
    (dry_run : Bool) : JSON :=
  .obj
    [ ("date", .str (pyTake now_iso 16)),
      ("path", .str scan_path),
      ("size", .num size),
      ("items", .num items),
      ("dry_run", .bool dry_run) ]

/-- `add_session` (src/cache.py lines 185-194): load, append, save. When
    the loaded value is not a list, Python's `h.append` raises and no save
    happens; that outcome is `none`. -/
def add_session (now_iso scan_path : String) (size items : Nat)
    (dry_run : Bool) (c : HistoryContent) : Option HistoryContent :=
  match load_history c with
  | .arr h =>
      some (save_history (h ++ [session_record now_iso scan_path size items dry_run]))
  | _ => none

/-- The observable outcome of one `clean_matches` call. -/
structure CleanResult where
  /-- the paths whose deletion was attempted (`unlink`/`rmtree`), in order -/
  attempted : List FsPath
  /-- the paths actually removed from disk, in order -/
  removed : List FsPath
  /-- the `freed` counter (src/cache.py line 257) -/
  freed : Nat
  /-- the `deleted` counter (src/cache.py line 258) -/
  deleted : Nat
  /-- the history file after the call (`none`: `add_session` raised) -/
  history : Option HistoryContent
deriving Repr

/-- The deletion loop (src/cache.py lines 260-272): attempt every match in
    order; `del_ok m.path` tells whether the `unlink`/`rmtree` call
    succeeds (any exception is swallowed and the match is skipped). -/
def clean_loop (del_ok : FsPath → Bool) (ms : List Match) :
    List FsPath × List FsPath × Nat × Nat :=
  ms.foldl
    (fun acc m =>
      if del_ok m.path then
        (acc.1 ++ [m.path], acc.2.1 ++ [m.path], acc.2.2.1 + m.size, acc.2.2.2 + 1)
      else
        (acc.1 ++ [m.path], acc.2.1, acc.2.2.1, acc.2.2.2))
    ([], [], 0, 0)

/-- `clean_matches` (src/cache.py lines 235-279). `confirm_answer` stands
    for the value `click.confirm` would return; it is consulted only when
    the prompt is actually shown. -/
def clean_matches (now_iso : String) (del_ok : FsPath → Bool)
    (ms : List Match) (dry_run : Bool) (scan_path : String)
    (skip_confirm : Bool) (confirm_answer : Bool) (c : HistoryContent) :
    CleanResult :=
  if ms.isEmpty then ⟨[], [], 0, 0, some c⟩
  else
    let total := (ms.map Match.size).sum
    if dry_run then
      ⟨[], [], 0, 0, add_session now_iso scan_path total ms.length true c⟩
    else if !skip_confirm && !confirm_answer then
      ⟨[], [], 0, 0, some c⟩
    else
      let r := clean_loop del_ok ms
      ⟨r.1, r.2.1, r.2.2.1, r.2.2.2,
        add_session now_iso scan_path r.2.2.1 r.2.2.2 false c⟩

/-- Decimal-literal parsing, modelling Python's `float` constructor on the
    plain forms `digits`, `digits.digits`, `.digits`, `digits.` with an
    optional sign (the program passes it the text before a size unit,
    src/cache.py lines 309-313); `none` is a `ValueError`. The value is
    kept exactly, as a numerator over the power-of-ten denominator
    `10 ^ k`: a result `(n, k)` denotes `n / 10 ^ k`. (Python's binary
    floating point agrees with this exact arithmetic on the sizes in
    question up to rounding of the excess decimal digits.) -/
def parseDec (s : String) : Option (Int × Nat) :=
  let digitsVal : List Char → Nat :=
    fun l => l.foldl (fun n c => n * 10 + (c.toNat - 48)) 0
  let core : List Char → Option (Int × Nat) := fun l =>
    match l.splitOn '.' with
    | [a] =>
        if !a.isEmpty && a.all Char.isDigit then
          some ((digitsVal a : Int), 0)
        else none
    | [a, b] =>
        if (!a.isEmpty || !b.isEmpty) && a.all Char.isDigit && b.all Char.isDigit then
          some (((digitsVal a * 10 ^ b.length + digitsVal b : Nat) : Int), b.length)
        else none
    | _ => none
  match s.data with
  | '-' :: rest => (core rest).map fun v => (-v.1, v.2)
  | '+' :: rest => core rest
  | l => core l

/-- Python `int(float(text) * mult)` for a parsed decimal `(n, k)`
    denoting `n / 10 ^ k`: multiply, then truncate toward zero
    (`Int.tdiv` is truncating division, like Python's `int()`). -/
def pyIntTimes (v : Int × Nat) (mult : Nat) : Int :=
  (v.1 * mult).tdiv (10 ^ v.2)

/-- The `--min-size` parsing block of the `scan` command
    (src/cache.py lines 306-313): uppercase, then try the suffixes `GB`,
    `MB`, `KB` in that order, multiplying the leading number by the unit;
    any other string keeps the 1 MiB default. `none` is the uncaught
    `ValueError` a unit suffix with an unparsable number raises. -/
def parse_min_size (min_size : String) : Option Int :=
  let ms := pyUpper min_size
  if pyEndsWith ms "GB" then
    (parseDec (pyDropRight ms 2)).map fun v => pyIntTimes v (1024 ^ 3)
  else if pyEndsWith ms "MB" then
    (parseDec (pyDropRight ms 2)).map fun v => pyIntTimes v (1024 ^ 2)
  else if pyEndsWith ms "KB" then
    (parseDec (pyDropRight ms 2)).map fun v => pyIntTimes v 1024
  else some (1024 * 1024)

/-- A sequence of completed invocations, each recording its session via
    `add_session`; an argument tuple is (now, scan_path, size, items,
    dry_run). The chain stops (`none`) if some `add_session` raises. -/
def run_sessions (l : List (String × String × Nat × Nat × Bool))
    (c : HistoryContent) : Option HistoryContent :=
  l.foldlM (fun c a => add_session a.1 a.2.1 a.2.2.1 a.2.2.2.1 a.2.2.2.2 c) c

/-- The record one argument tuple of `run_sessions` persists. -/
def args_record (a : String × String × Nat × Nat × Bool) : JSON :=
  session_record a.1 a.2.1 a.2.2.1 a.2.2.2.1 a.2.2.2.2

lemma takeLast_append (n : Nat) (A B : List JSON) :
    takeLast n (A ++ B) = takeLast (n - B.length) A ++ takeLast n B := by
  unfold takeLast
  rcases le_or_lt n B.length with h | h
  · have h0 : n - B.length = 0 := Nat.sub_eq_zero_of_le h
    rw [h0]
    have : A.length + B.length - n = A.length + (B.length - n) := by omega
    rw [List.length_append, this, List.drop_append, Nat.sub_zero, List.drop_length,
      List.nil_append]
  · have h1 : A.length + B.length - n ≤ A.length := by omega
    rw [List.length_append, List.drop_append_of_le_length h1]
    have h2 : B.length - n = 0 := by omega
    have h3 : A.length - (n - B.length) = A.length + B.length - n := by omega
    rw [h2, List.drop_zero, h3]

lemma takeLast_takeLast (m n : Nat) (l : List JSON) :
    takeLast m (takeLast n l) = takeLast (min m n) l := by
  unfold takeLast
  rw [List.drop_drop, List.length_drop]
  congr 1
  omega

/-- Re-truncating before an append does not change the last-100 window. -/
lemma takeLast_collapse (n : Nat) (A B : List JSON) :
    takeLast n (takeLast n A ++ B) = takeLast n (A ++ B) := by
  rw [takeLast_append, takeLast_takeLast, takeLast_append]
  congr 2
  omega

lemma takeLast_length (n : Nat) (l : List JSON) :
    (takeLast n l).length = min n l.length := by
  unfold takeLast
  rw [List.length_drop]
  omega

lemma takeLast_append_right (n : Nat) (A B : List JSON) (h : n ≤ B.length) :
    takeLast n (A ++ B) = takeLast n B := by
  rw [takeLast_append, Nat.sub_eq_zero_of_le h]
  unfold takeLast
  rw [Nat.sub_zero, List.drop_length, List.nil_append]

lemma load_save (X : List JSON) :
    load_history (save_history X) = .arr (takeLast 100 X) := rfl

/-- From a freshly saved state, a chain of `add_session` calls appends all
    its records, keeping the last-100 window. -/
lemma run_sessions_from_saved (l : List (String × String × Nat × Nat × Bool))
    (X : List JSON) :
    run_sessions l (save_history X) =
      some (save_history (X ++ l.map args_record)) := by
  induction l generalizing X with
  | nil => simp [run_sessions]
  | cons a l ih =>
      have step :
          add_session a.1 a.2.1 a.2.2.1 a.2.2.2.1 a.2.2.2.2 (save_history X) =
            some (save_history (takeLast 100 X ++ [args_record a])) := by
        simp [add_session, load_save, args_record]
      have h1 : run_sessions (a :: l) (save_history X) =
          run_sessions l (save_history (takeLast 100 X ++ [args_record a])) := by
        simp [run_sessions, step]
      rw [h1, ih]
      unfold save_history
      rw [List.append_assoc, takeLast_collapse]
      rfl

/-- C8: after N ≥ 100 appended session records the store holds exactly the
    100 most recent ones, oldest dropped first, and loading returns them in
    their original append order (`takeLast 100` keeps the order of its
    input, and here it is the plain suffix of the appended records). -/
theorem claim_C8_history_bound (c : HistoryContent) (h : List JSON)
    (l : List (String × String × Nat × Nat × Bool))
    (hc : load_history c = .arr h) (hn : 100 ≤ l.length) :
    run_sessions l c = some (save_history (l.map args_record)) ∧
    load_history (save_history (l.map args_record)) =
      .arr (takeLast 100 (l.map args_record)) ∧
    (takeLast 100 (l.map args_record)).length = 100 ∧
    takeLast 100 (l.map args_record) =
      (l.map args_record).drop (l.length - 100) := by
  refine ⟨?_, load_save _, ?_, ?_⟩
  · cases l with
    | nil => simp at hn
    | cons a l =>
        have step :
            add_session a.1 a.2.1 a.2.2.1 a.2.2.2.1 a.2.2.2.2 c =
              some (save_history (h ++ [args_record a])) := by
          simp [add_session, hc, args_record]
        have h1 : run_sessions (a :: l) c =
            run_sessions l (save_history (h ++ [args_record a])) := by
          simp [run_sessions, step]
        have hlen : 100 ≤ ([args_record a] ++ l.map args_record).length := by
          simp only [List.length_cons] at hn
          simp only [List.length_append, List.length_map, List.length_singleton]
          omega
        rw [h1, run_sessions_from_saved]
        unfold save_history
        rw [List.append_assoc, takeLast_append_right _ _ _ hlen]
        rfl
  · rw [takeLast_length, List.length_map]
    omega
  · unfold takeLast
    rw [List.length_map]

/-- C9: the tolerant history load: a raw JSON array is returned as is; a
    legacy object carrying the `"sessions"` key returns the wrapped value
    (in particular the wrapped record list); every other persisted content
    — missing file, text `json.loads` rejects, an object without the key,
    or a non-container value — degrades to the empty list, and no parse
    error ever escapes (`load_history` is total). -/
theorem claim_C9_load_tolerant :
    (∀ l, load_history (.value (.arr l)) = .arr l) ∧
    (∀ fields v, jsonGet fields "sessions" = some v →
      load_history (.value (.obj fields)) = v) ∧
    (load_history .missing = .arr []) ∧
    (load_history .malformed = .arr []) ∧
    (∀ fields, jsonGet fields "sessions" = none →
      load_history (.value (.obj fields)) = .arr []) ∧
    (load_history (.value .null) = .arr []) ∧
    (∀ b, load_history (.value (.bool b)) = .arr []) ∧
    (∀ n, load_history (.value (.num n)) = .arr []) ∧
    (∀ s, load_history (.value (.str s)) = .arr []) := by
  refine ⟨fun l => rfl, fun fields v hv => ?_, rfl, rfl, fun fields hv => ?_,
    rfl, fun b => rfl, fun n => rfl, fun s => rfl⟩
  · simp [load_history, hv]
  · simp [load_history, hv]

theorem claim_C9_witness :
    jsonGet [("sessions", .arr [.num 1])] "sessions" = some (.arr [.num 1]) ∧
    load_history (.value (.obj [("sessions", .arr [.num 1])])) = .arr [.num 1] :=
  ⟨rfl, claim_C9_load_tolerant.2.1 _ _ rfl⟩

theorem claim_C8_witness :
    load_history .missing = .arr [] ∧
    100 ≤ (List.replicate 100 ("", "", 0, 0, true)).length ∧
    run_sessions (List.replicate 100 ("", "", 0, 0, true)) .missing =
      some (save_history ((List.replicate 100 ("", "", 0, 0, true)).map args_record)) :=
  ⟨rfl, by decide,
    (claim_C8_history_bound .missing [] _ rfl (by decide)).1⟩

/-- C1: in dry-run mode `clean_matches` attempts and performs no deletion;
    with a non-empty match list it appends exactly one record with
    `dry_run=true`, size the sum of the match sizes and item count the
    number of matches; with an empty match list it leaves history
    untouched. -/
theorem claim_C1_dry_run (now : String) (del_ok : FsPath → Bool)
    (ms : List Match) (sp : String) (sk ca : Bool) (c : HistoryContent)
    (h : List JSON) (hc : load_history c = .arr h) :
    (clean_matches now del_ok ms true sp sk ca c).attempted = [] ∧
    (clean_matches now del_ok ms true sp sk ca c).removed = [] ∧
    (ms ≠ [] →
      (clean_matches now del_ok ms true sp sk ca c).history =
        some (save_history
          (h ++ [session_record now sp ((ms.map Match.size).sum) ms.length true]))) ∧
    (ms = [] →
      (clean_matches now del_ok ms true sp sk ca c).history = some c) := by
  cases ms with
  | nil => exact ⟨rfl, rfl, fun hne => absurd rfl hne, fun _ => rfl⟩
  | cons m ms =>
      refine ⟨rfl, rfl, fun _ => ?_, fun he => by simp at he⟩
      show add_session now sp _ _ true c = _
      simp [add_session, hc]

theorem claim_C1_witness :
    load_history .missing = .arr [] ∧
    ([⟨["r", "node_modules"], "node", "node_modules", 2000000⟩] : List Match) ≠ [] ∧
    (clean_matches "t" (fun _ => true)
        [⟨["r", "node_modules"], "node", "node_modules", 2000000⟩]
        true "/r" false false .missing).removed = [] ∧
    (clean_matches "t" (fun _ => true)
        [⟨["r", "node_modules"], "node", "node_modules", 2000000⟩]
        true "/r" false false .missing).history =
      some (save_history
        ([] ++ [session_record "t" "/r"
          ((([⟨["r", "node_modules"], "node", "node_modules", 2000000⟩] : List Match).map Match.size).sum)
          ([⟨["r", "node_modules"], "node", "node_modules", 2000000⟩] : List Match).length true])) := by
  have hmain := claim_C1_dry_run "t" (fun _ => true)
    [⟨["r", "node_modules"], "node", "node_modules", 2000000⟩]
    "/r" false false .missing [] rfl
  exact ⟨rfl, by decide, hmain.2.1, hmain.2.2.1 (by decide)⟩

/-- C2: an execute-mode clean whose confirmation prompt is declined
    (`skip_confirm` unset, answer `false`) performs and attempts no
    deletion and leaves the history file exactly as it was — this also
    covers the empty match list, which returns even before the prompt. -/
theorem claim_C2_declined (now : String) (del_ok : FsPath → Bool)
    (ms : List Match) (sp : String) (c : HistoryContent) :
    clean_matches now del_ok ms false sp false false c =
      ⟨[], [], 0, 0, some c⟩ := by
  cases ms <;> rfl

lemma clean_loop_go (del_ok : FsPath → Bool) (ms : List Match)
    (acc : List FsPath × List FsPath × Nat × Nat) :
    ms.foldl
      (fun acc m =>
        if del_ok m.path then
          (acc.1 ++ [m.path], acc.2.1 ++ [m.path], acc.2.2.1 + m.size, acc.2.2.2 + 1)
        else
          (acc.1 ++ [m.path], acc.2.1, acc.2.2.1, acc.2.2.2))
      acc =
    (acc.1 ++ ms.map Match.path,
     acc.2.1 ++ (ms.filter fun m => del_ok m.path).map Match.path,
     acc.2.2.1 + ((ms.filter fun m => del_ok m.path).map Match.size).sum,
     acc.2.2.2 + (ms.filter fun m => del_ok m.path).length) := by
  induction ms generalizing acc with
  | nil => simp
  | cons m ms ih =>
      simp only [List.foldl_cons]
      by_cases hm : del_ok m.path
      · rw [if_pos hm, ih]
        simp [List.filter_cons, hm, List.append_assoc, Nat.add_assoc, Nat.add_comm]
      · rw [if_neg hm, ih]
        simp [List.filter_cons, hm, List.append_assoc]

/-- The deletion loop attempts every match in order; exactly the matches
    whose deletion does not raise are removed, counted and summed. -/
lemma clean_loop_spec (del_ok : FsPath → Bool) (ms : List Match) :
    clean_loop del_ok ms =
      (ms.map Match.path,
       (ms.filter fun m => del_ok m.path).map Match.path,
       ((ms.filter fun m => del_ok m.path).map Match.size).sum,
       (ms.filter fun m => del_ok m.path).length) := by
  unfold clean_loop
  rw [clean_loop_go]
  simp

/-- C3: on a confirmed (or confirmation-skipped) execute over a non-empty
    match list, every match is attempted in order; a match whose deletion
    raises is skipped and contributes nothing to `freed`/`deleted`, the
    rest still being attempted; afterwards exactly one record is appended
    with `dry_run=false`, size `freed` and items `deleted`. -/
theorem claim_C3_execute_failures (now : String) (del_ok : FsPath → Bool)
    (ms : List Match) (sp : String) (sk ca : Bool) (c : HistoryContent)
    (h : List JSON) (hms : ms ≠ []) (hok : sk = true ∨ ca = true)
    (hc : load_history c = .arr h) :
    (clean_matches now del_ok ms false sp sk ca c).attempted =
      ms.map Match.path ∧
    (clean_matches now del_ok ms false sp sk ca c).removed =
      (ms.filter fun m => del_ok m.path).map Match.path ∧
    (clean_matches now del_ok ms false sp sk ca c).freed =
      ((ms.filter fun m => del_ok m.path).map Match.size).sum ∧
    (clean_matches now del_ok ms false sp sk ca c).deleted =
      (ms.filter fun m => del_ok m.path).length ∧
    (clean_matches now del_ok ms false sp sk ca c).history =
      some (save_history (h ++
        [session_record now sp
          (((ms.filter fun m => del_ok m.path).map Match.size).sum)
          ((ms.filter fun m => del_ok m.path).length) false])) := by
  have hskip : (!sk && !ca) = false := by
    rcases hok with hsk | hca
    · rw [hsk]; rfl
    · rw [hca]; simp
  have hne : ms.isEmpty = false := by
    cases ms with
    | nil => exact absurd rfl hms
    | cons m ms => rfl
  have hcm : clean_matches now del_ok ms false sp sk ca c =
      ⟨(clean_loop del_ok ms).1, (clean_loop del_ok ms).2.1,
        (clean_loop del_ok ms).2.2.1, (clean_loop del_ok ms).2.2.2,
        add_session now sp (clean_loop del_ok ms).2.2.1
          (clean_loop del_ok ms).2.2.2 false c⟩ := by
    unfold clean_matches
    rw [hne, hskip]
    simp
  rw [hcm, clean_loop_spec]
  refine ⟨rfl, rfl, rfl, rfl, ?_⟩
  simp [add_session, hc]

theorem claim_C3_witness :
    (([⟨["r", "a"], "python", "venv", 300⟩,
       ⟨["r", "b"], "python", "venv", 200⟩,
       ⟨["r", "c"], "python", "venv", 100⟩] : List Match) ≠ []) ∧
    ((true = true ∨ false = true)) ∧
    (clean_matches "t" (fun p => !(p = ["r", "b"]))
        [⟨["r", "a"], "python", "venv", 300⟩,
         ⟨["r", "b"], "python", "venv", 200⟩,
         ⟨["r", "c"], "python", "venv", 100⟩]
        false "/r" true false .missing).removed =
      ([⟨["r", "a"], "python", "venv", 300⟩,
        ⟨["r", "b"], "python", "venv", 200⟩,
        ⟨["r", "c"], "python", "venv", 100⟩].filter
          (fun m => !(m.path = ["r", "b"]))).map Match.path ∧
    (clean_matches "t" (fun p => !(p = ["r", "b"]))
        [⟨["r", "a"], "python", "venv", 300⟩,
         ⟨["r", "b"], "python", "venv", 200⟩,
         ⟨["r", "c"], "python", "venv", 100⟩]
        false "/r" true false .missing).freed = 400 ∧
    (clean_matches "t" (fun p => !(p = ["r", "b"]))
        [⟨["r", "a"], "python", "venv", 300⟩,
         ⟨["r", "b"], "python", "venv", 200⟩,
         ⟨["r", "c"], "python", "venv", 100⟩]
        false "/r" true false .missing).deleted = 2 := by
  have hmain := claim_C3_execute_failures "t" (fun p => !(p = ["r", "b"]))
    [⟨["r", "a"], "python", "venv", 300⟩,
     ⟨["r", "b"], "python", "venv", 200⟩,
     ⟨["r", "c"], "python", "venv", 100⟩]
    "/r" true false .missing [] (by decide) (Or.inl rfl) rfl
  exact ⟨by decide, Or.inl rfl, hmain.2.1,
    by rw [hmain.2.2.1]; decide, by rw [hmain.2.2.2.1]; decide⟩

/-- C10: the `--min-size` string is uppercased and, when it ends in `GB`,
    `MB` or `KB` (tried in that order), the leading decimal number is
    multiplied by `1024^3`, `1024^2` or `1024`; a whole-number prefix
    `(n, 0)` gives exactly `n * unit`. Any string ending in none of the
    three units — a bare number, an unsupported unit — silently keeps the
    1 MiB default. -/
theorem claim_C10_min_size (s : String) :
    (∀ v, pyEndsWith (pyUpper s) "GB" = true →
      parseDec (pyDropRight (pyUpper s) 2) = some v →
      parse_min_size s = some (pyIntTimes v (1024 ^ 3))) ∧
    (∀ v, pyEndsWith (pyUpper s) "GB" = false →
      pyEndsWith (pyUpper s) "MB" = true →
      parseDec (pyDropRight (pyUpper s) 2) = some v →
      parse_min_size s = some (pyIntTimes v (1024 ^ 2))) ∧
    (∀ v, pyEndsWith (pyUpper s) "GB" = false →
      pyEndsWith (pyUpper s) "MB" = false →
      pyEndsWith (pyUpper s) "KB" = true →
      parseDec (pyDropRight (pyUpper s) 2) = some v →
      parse_min_size s = some (pyIntTimes v 1024)) ∧
    (pyEndsWith (pyUpper s) "GB" = false →
      pyEndsWith (pyUpper s) "MB" = false →
      pyEndsWith (pyUpper s) "KB" = false →
      parse_min_size s = some (1024 * 1024)) ∧
    (∀ (n : Int) (mult : Nat), pyIntTimes (n, 0) mult = n * mult) := by
  refine ⟨fun v hgb hv => ?_, fun v hgb hmb hv => ?_,
    fun v hgb hmb hkb hv => ?_, fun hgb hmb hkb => ?_, fun n mult => ?_⟩
  · simp [parse_min_size, hgb, hv]
  · simp [parse_min_size, hgb, hmb, hv]
  · simp [parse_min_size, hgb, hmb, hkb, hv]
  · simp [parse_min_size, hgb, hmb, hkb]
  · simp [pyIntTimes]

theorem claim_C10_witness :
    (pyEndsWith (pyUpper "2gb") "GB" = true ∧
     parseDec (pyDropRight (pyUpper "2gb") 2) = some (2, 0) ∧
     parse_min_size "2gb" = some (pyIntTimes (2, 0) (1024 ^ 3)) ∧
     parse_min_size "2gb" = some 2147483648) ∧
    (pyEndsWith (pyUpper "1TB") "GB" = false ∧
     pyEndsWith (pyUpper "1TB") "MB" = false ∧
     pyEndsWith (pyUpper "1TB") "KB" = false ∧
     parse_min_size "1TB" = some (1024 * 1024)) ∧
    (parse_min_size "500" = some (1024 * 1024)) ∧
    (parse_min_size "512kb" = some 524288) :=
  ⟨⟨by decide, by decide,
      (claim_C10_min_size "2gb").1 (2, 0) (by decide) (by decide), by decide⟩,
    ⟨by decide, by decide, by decide,
      (claim_C10_min_size "1TB").2.2.2.1 (by decide) (by decide) (by decide)⟩,
    by decide, by decide⟩

/-- Modelled from the spec (PatternCatalog): the catalog flattened to
    document order, each row holding category, cache-type and patterns. -/
def catalogFlat : List (String × String × List String) :=
  CACHE_TYPES.flatMap fun ct => ct.2.map fun ty => (ct.1, ty.1, ty.2.1)

/-- Modelled from the spec (PatternCatalog.match): "returns the first
    category/type whose pattern list contains a matching pattern", over
    the document-order flattening. -/
def specFirstMatch (name : String) : Option (String × String) :=
  (catalogFlat.find? fun e => e.2.2.any fun p => patMatches p name).map
    fun e => (e.1, e.2.1)

lemma find?_append_or {α} (p : α → Bool) (l₁ l₂ : List α) :
    (l₁ ++ l₂).find? p = (l₁.find? p).or (l₂.find? p) := by
  induction l₁ with
  | nil => simp
  | cons a l ih => by_cases h : p a <;> simp [h, ih]

lemma findSome_inner (c : String) (ts : List (String × (List String × String)))
    (name : String) :
    (ts.findSome? fun ty =>
      if ty.2.1.any (fun p => patMatches p name) then some (c, ty.1) else none) =
    ((ts.map fun ty => (c, ty.1, ty.2.1)).find? fun e =>
        e.2.2.any fun p => patMatches p name).map fun e => (e.1, e.2.1) := by
  induction ts with
  | nil => rfl
  | cons ty ts ih =>
      rw [List.findSome?_cons, List.map_cons]
      by_cases h : (ty.2.1.any fun p => patMatches p name) = true
      · have hpos : (fun e : String × String × List String =>
            e.2.2.any fun p => patMatches p name) (c, ty.1, ty.2.1) = true := h
        rw [if_pos h, List.find?_cons_of_pos
          (p := fun e : String × String × List String =>
            e.2.2.any fun p => patMatches p name) _ hpos]
        rfl
      · have hneg : ¬ ((fun e : String × String × List String =>
            e.2.2.any fun p => patMatches p name) (c, ty.1, ty.2.1) = true) := h
        rw [if_neg h, List.find?_cons_of_neg
          (p := fun e : String × String × List String =>
            e.2.2.any fun p => patMatches p name) _ hneg]
        exact ih

lemma catalogFind_flat_aux (L : List (String × List (String × (List String × String))))
    (name : String) :
    (L.findSome? fun ct =>
      if catSkipped none ct.1 then none
      else ct.2.findSome? fun ty =>
        if ty.2.1.any (fun p => patMatches p name) then some (ct.1, ty.1) else none) =
    ((L.flatMap fun ct => ct.2.map fun ty => (ct.1, ty.1, ty.2.1)).find? fun e =>
        e.2.2.any fun p => patMatches p name).map fun e => (e.1, e.2.1) := by
  induction L with
  | nil => rfl
  | cons ct L ih =>
      rw [List.flatMap_cons, find?_append_or, List.findSome?_cons]
      have hskip : catSkipped none ct.1 = false := rfl
      rw [hskip]
      simp only [Bool.false_eq_true, if_false]
      rw [findSome_inner]
      cases hA : (ct.2.map fun ty => (ct.1, ty.1, ty.2.1)).find? fun e =>
          e.2.2.any fun p => patMatches p name with
      | none => exact ih
      | some e => rfl

/-- C7: the code's pattern lookup is exactly first-match-wins over the
    document-order flattening of the catalog; a pattern without the `*`
    marker matches by exact equality and one with it by suffix; and the
    ambiguous name `build` (a pattern of both python/eggs and java/gradle)
    resolves to the earlier-registered python/eggs. -/
theorem claim_C7_first_match_wins :
    (∀ name, catalogFind none name = specFirstMatch name) ∧
    (∀ pattern name, pyStartsWith pattern "*" = false →
      patMatches pattern name = (name == pattern)) ∧
    (∀ pattern name, pyStartsWith pattern "*" = true →
      patMatches pattern name = pyEndsWith name (pyDrop pattern 1)) ∧
    catalogFind none "build" = some ("python", "eggs") ∧
    specFirstMatch "build" = some ("python", "eggs") := by
  refine ⟨fun name => catalogFind_flat_aux CACHE_TYPES name,
    fun pattern name h => ?_, fun pattern name h => ?_, by decide, by decide⟩
  · simp [patMatches, h]
  · simp [patMatches, h]

theorem claim_C7_witness :
    pyStartsWith "*.pyc" "*" = true ∧
    pyStartsWith "build" "*" = false ∧
    patMatches "*.pyc" "mod.pyc" = pyEndsWith "mod.pyc" (pyDrop "*.pyc" 1) ∧
    patMatches "build" "build" = ("build" == "build") :=
  ⟨by decide, by decide,
    claim_C7_first_match_wins.2.2.1 "*.pyc" "mod.pyc" (by decide),
    claim_C7_first_match_wins.2.1 "build" "build" (by decide)⟩

lemma pfxTake {α} (n : Nat) (l : List α) : l.take n <+: l := List.take_prefix n l

lemma pfxEqTake {α} {l₁ l₂ : List α} (h : l₁ <+: l₂) : l₁ = l₂.take l₁.length :=
  List.prefix_iff_eq_take.mp h

lemma pfxOfLe {α} {u v w : List α} (h : u.length ≤ v.length)
    (hu : u <+: w) (hv : v <+: w) : u <+: v := by
  have h2 : v.take u.length = u := by
    rw [pfxEqTake hv, List.take_take, Nat.min_eq_left h, ← pfxEqTake hu]
  rw [← h2]
  exact pfxTake _ _

lemma pfxComparable {α} {u v w : List α} (hu : u <+: w) (hv : v <+: w) :
    u <+: v ∨ v <+: u := by
  rcases le_total u.length v.length with h | h
  · exact Or.inl (pfxOfLe h hu hv)
  · exact Or.inr (pfxOfLe h hv hu)

lemma pfxSnocSelf {α} (p : List α) (n : α) : p <+: p ++ [n] := ⟨[n], rfl⟩

lemma pfxBetweenSnoc {α} {p q : List α} {n : α} (h1 : p <+: q)
    (h2 : q <+: p ++ [n]) (h3 : q ≠ p) : q = p ++ [n] := by
  have l1 := h1.length_le
  have l2 := h2.length_le
  rw [List.length_append, List.length_singleton] at l2
  rcases Nat.lt_or_ge q.length (p.length + 1) with hlt | hge
  · have hl : p.length = q.length := by omega
    exact absurd (h1.eq_of_length hl).symm h3
  · refine h2.eq_of_length ?_
    rw [List.length_append, List.length_singleton]
    omega

lemma pathName_snoc (p : FsPath) (n : String) : pathName (p ++ [n]) = n := by
  simp [pathName]

/-- What one call of the recursive scan rooted at `p` adds to the state:
    matches are only appended; every new match entered the `seen` set, was
    not seen before, meets the size threshold, sits strictly below `p`, and
    every directory strictly between `p` and it on its path is unmatched in
    the catalog (the scan only descended through unmatched entries); the
    new paths are pairwise distinct. -/
def ScanAdds (categories : Option (List String)) (min_size : Nat)
    (p : FsPath) (st st' : ScanState) : Prop :=
  ∃ Δ : List Match,
    st'.found = st.found ++ Δ ∧
    st'.seen = (Δ.map Match.path).reverse ++ st.seen ∧
    (Δ.map Match.path).Nodup ∧
    (∀ m ∈ Δ, m.path ∉ st.seen) ∧
    (∀ m ∈ Δ, min_size ≤ m.size) ∧
    (∀ m ∈ Δ, p <+: m.path ∧ p ≠ m.path) ∧
    (∀ m ∈ Δ, ∀ q : FsPath, p <+: q → q <+: m.path → q ≠ p → q ≠ m.path →
      catalogFind categories (pathName q) = none)

lemma scanAdds_refl (categories : Option (List String)) (min_size : Nat)
    (p : FsPath) (st : ScanState) : ScanAdds categories min_size p st st :=
  ⟨[], by simp, by simp, by simp, by simp, by simp, by simp, by simp⟩

lemma scanAdds_trans {categories : Option (List String)} {min_size : Nat}
    {p : FsPath} {st st₁ st₂ : ScanState}
    (h1 : ScanAdds categories min_size p st st₁)
    (h2 : ScanAdds categories min_size p st₁ st₂) :
    ScanAdds categories min_size p st st₂ := by
  obtain ⟨Δ₁, hf₁, hs₁, hn₁, hns₁, hsz₁, hp₁, hq₁⟩ := h1
  obtain ⟨Δ₂, hf₂, hs₂, hn₂, hns₂, hsz₂, hp₂, hq₂⟩ := h2
  refine ⟨Δ₁ ++ Δ₂, ?_, ?_, ?_, ?_, ?_, ?_, ?_⟩
  · rw [hf₂, hf₁, List.append_assoc]
  · rw [hs₂, hs₁, List.map_append, List.reverse_append, List.append_assoc]
  · rw [List.map_append, List.nodup_append]
    refine ⟨hn₁, hn₂, ?_⟩
    intro x hx1 hx2
    obtain ⟨m₂, hm₂, hxeq⟩ := List.mem_map.mp hx2
    apply hns₂ m₂ hm₂
    rw [hs₁]
    exact List.mem_append.mpr (Or.inl (List.mem_reverse.mpr (hxeq ▸ hx1)))
  · intro m hm
    rcases List.mem_append.mp hm with h | h
    · exact hns₁ m h
    · intro hmem
      apply hns₂ m h
      rw [hs₁]
      exact List.mem_append.mpr (Or.inr hmem)
  · intro m hm
    rcases List.mem_append.mp hm with h | h
    · exact hsz₁ m h
    · exact hsz₂ m h
  · intro m hm
    rcases List.mem_append.mp hm with h | h
    · exact hp₁ m h
    · exact hp₂ m h
  · intro m hm
    rcases List.mem_append.mp hm with h | h
    · exact hq₁ m h
    · exact hq₂ m h

/-- Descending through an unmatched directory entry `p ++ [n]` preserves
    the invariant relative to the parent `p`. -/
lemma scanAdds_lift {categories : Option (List String)} {min_size : Nat}
    {p : FsPath} {n : String} {st st' : ScanState}
    (hn : catalogFind categories n = none)
    (h : ScanAdds categories min_size (p ++ [n]) st st') :
    ScanAdds categories min_size p st st' := by
  obtain ⟨Δ, hf, hs, hnd, hnsn, hsz, hp, hq⟩ := h
  refine ⟨Δ, hf, hs, hnd, hnsn, hsz, ?_, ?_⟩
  · intro m hm
    obtain ⟨hpref, hneq⟩ := hp m hm
    refine ⟨(pfxSnocSelf p n).trans hpref, ?_⟩
    intro hcon
    have h1 : (p ++ [n]).length ≤ m.path.length := hpref.length_le
    rw [← hcon] at h1
    simp at h1
  · intro m hm q hpq hqm hqp hqm2
    obtain ⟨hpref, _⟩ := hp m hm
    rcases pfxComparable hqm hpref with hcase | hcase
    · rw [pfxBetweenSnoc hpq hcase hqp, pathName_snoc]
      exact hn
    · by_cases hqe : q = p ++ [n]
      · rw [hqe, pathName_snoc]
        exact hn
      · exact hq m hm q hcase hqm hqe hqm2

lemma scanStep_adds (fs : FS) (categories : Option (List String)) (min_size : Nat)
    (scanRec : FsPath → ScanState → ScanState) (p : FsPath) (n : String)
    (hrec : ∀ st, ScanAdds categories min_size (p ++ [n]) st (scanRec (p ++ [n]) st))
    (st : ScanState) :
    ScanAdds categories min_size p st
      (scanStep fs categories min_size scanRec p n st) := by
  simp only [scanStep]
  split
  · exact scanAdds_refl _ _ _ _
  next hseen =>
    split
    next ct hct =>
      split
      next hsize =>
        refine ⟨[⟨p ++ [n], ct.1, ct.2, fs.size (p ++ [n])⟩], rfl, by simp, by simp,
          ?_, ?_, ?_, ?_⟩
        · intro m hm
          rcases List.mem_singleton.mp hm with rfl
          exact hseen
        · intro m hm
          rcases List.mem_singleton.mp hm with rfl
          exact hsize
        · intro m hm
          rcases List.mem_singleton.mp hm with rfl
          exact ⟨pfxSnocSelf p n, by simp⟩
        · intro m hm q hpq hqm hqp hqm2
          rcases List.mem_singleton.mp hm with rfl
          exact absurd (pfxBetweenSnoc hpq hqm hqp) hqm2
      next => exact scanAdds_refl _ _ _ _
    next hct =>
      split
      · exact scanAdds_lift hct (hrec st)
      · exact scanAdds_refl _ _ _ _

lemma scanFold_adds (fs : FS) (categories : Option (List String)) (min_size : Nat)
    (scanRec : FsPath → ScanState → ScanState) (p : FsPath)
    (hrec : ∀ n st, ScanAdds categories min_size (p ++ [n]) st (scanRec (p ++ [n]) st))
    (names : List String) :
    ∀ st : ScanState,
      ScanAdds categories min_size p st
        (names.foldl
          (fun st name => scanStep fs categories min_size scanRec p name st) st) := by
  induction names with
  | nil => intro st; exact scanAdds_refl _ _ _ _
  | cons n rest ih =>
      intro st
      rw [List.foldl_cons]
      exact scanAdds_trans
        (scanStep_adds fs categories min_size scanRec p n (hrec n) st) (ih _)

/-- The master invariant of the recursive scan, for every fuel value. -/
lemma scanGo_adds (fs : FS) (categories : Option (List String))
    (max_depth : Option Nat) (min_size : Nat) (base_depth : Nat) :
    ∀ (fuel : Nat) (p : FsPath) (st : ScanState),
      ScanAdds categories min_size p st
        (scanGo fs categories max_depth min_size base_depth fuel p st) := by
  intro fuel
  induction fuel with
  | zero => intro p st; exact scanAdds_refl _ _ _ _
  | succ fuel ih =>
      intro p st
      simp only [scanGo]
      split
      · exact scanAdds_refl _ _ _ _
      split
      · exact scanAdds_refl _ _ _ _
      split
      · exact scanAdds_refl _ _ _ _
      split
      · exact scanAdds_refl _ _ _ _
      split
      · exact scanAdds_refl _ _ _ _
      next entries heq =>
        exact scanFold_adds fs categories min_size
          (fun p s => scanGo fs categories max_depth min_size base_depth fuel p s)
          p (fun n st' => ih (p ++ [n]) st') entries st

lemma mem_scan_dir {fs : FS} {fuel : Nat} {root : FsPath}
    {categories : Option (List String)} {max_depth : Option Nat}
    {min_size : Nat} {m : Match} :
    m ∈ scan_dir fs fuel root categories max_depth min_size ↔
    m ∈ (scanGo fs categories max_depth min_size (fs.resolve root).length fuel
          (fs.resolve root) ⟨[], []⟩).found := by
  unfold scan_dir
  exact (List.perm_insertionSort _ _).mem_iff

/-- A filesystem with a symlinked alias: `r/link` resolves to `r/a`, and
    each of the two routes shows the same single `node_modules` directory
    (2 MB). None of the traversed names is in the skip-list. -/
def fsSym : FS where
  existsp := fun p => p ∈ ([["r"], ["r", "a"], ["r", "link"],
    ["r", "a", "node_modules"], ["r", "link", "node_modules"]] : List FsPath)
  isDir := fun p => p ∈ ([["r"], ["r", "a"], ["r", "link"]] : List FsPath)
  children := fun p =>
    if p = ["r"] then some ["a", "link"]
    else if p = ["r", "a"] ∨ p = ["r", "link"] then some ["node_modules"]
    else some []
  size := fun p => if pathName p = "node_modules" then 2000000 else 0
  resolve := fun p => p.map fun s => if s = "link" then "a" else s

/-- C4 counterexample: scanning `fsSym` returns two separate matches whose
    symlink-resolved paths are the same underlying `r/a/node_modules`, so
    deduplication is not by identity of the resolved path and a symlinked
    tree does yield the same underlying path twice. -/
theorem claim_C4_counterexample :
    (scan_dir fsSym 10 ["r"]).length = 2 ∧
    ((scan_dir fsSym 10 ["r"]).map fun m => fsSym.resolve m.path) =
      [["r", "a", "node_modules"], ["r", "a", "node_modules"]] ∧
    ¬ (((scan_dir fsSym 10 ["r"]).map fun m => fsSym.resolve m.path).Nodup) := by
  decide

/-- C4 (amended): in any single scan each literal (as-traversed,
    unresolved) path appears at most once in the match list — the `seen`
    set deduplicates by equality of the unresolved path, not of the
    symlink-resolved one, so aliased routes to one underlying directory can
    each contribute a match. -/
theorem claim_C4_amended_literal_dedup (fs : FS) (fuel : Nat) (root : FsPath)
    (categories : Option (List String)) (max_depth : Option Nat)
    (min_size : Nat) :
    ((scan_dir fs fuel root categories max_depth min_size).map Match.path).Nodup := by
  obtain ⟨Δ, hf, _, hnd, _, _, _, _⟩ :=
    scanGo_adds fs categories max_depth min_size (fs.resolve root).length fuel
      (fs.resolve root) ⟨[], []⟩
  have hperm : (scan_dir fs fuel root categories max_depth min_size).Perm
      (scanGo fs categories max_depth min_size (fs.resolve root).length fuel
        (fs.resolve root) ⟨[], []⟩).found := by
    unfold scan_dir
    exact List.perm_insertionSort _ _
  rw [(hperm.map Match.path).nodup_iff, hf]
  simpa using hnd

/-- C5: once a directory entry is matched by the catalog — whether or not
    it meets the size threshold — the scanner never descends into it:
    every strict intermediate `q` on the literal path from the resolved
    root down to any returned match is catalog-unmatched, so no descendant
    of a matched directory appears as a separate match of the same scan. -/
theorem claim_C5_short_circuit (fs : FS) (fuel : Nat) (root : FsPath)
    (categories : Option (List String)) (max_depth : Option Nat)
    (min_size : Nat) (m : Match)
    (hm : m ∈ scan_dir fs fuel root categories max_depth min_size)
    (q : FsPath) (h1 : fs.resolve root <+: q) (h2 : q <+: m.path)
    (h3 : q ≠ fs.resolve root) (h4 : q ≠ m.path) :
    catalogFind categories (pathName q) = none := by
  obtain ⟨Δ, hf, _, _, _, _, _, hq⟩ :=
    scanGo_adds fs categories max_depth min_size (fs.resolve root).length fuel
      (fs.resolve root) ⟨[], []⟩
  have hmem : m ∈ Δ := by
    have := mem_scan_dir.mp hm
    rw [hf] at this
    simpa using this
  exact hq m hmem q h1 h2 h3 h4

lemma scan_global_aux (fs : FS) (min_size : Nat)
    (globals : List (String × Option FsPath)) :
    ∀ acc : List Match, (∀ m ∈ acc, min_size ≤ m.size) →
      ∀ m ∈ globals.foldl
        (fun acc g =>
          match g.2 with
          | none => acc
          | some p =>
              if fs.existsp p && min_size ≤ fs.size p then
                acc ++ [⟨p, "global", g.1, fs.size p⟩]
              else acc)
        acc, min_size ≤ m.size := by
  induction globals with
  | nil =>
      intro acc hacc m hm
      exact hacc m hm
  | cons g rest ih =>
      intro acc hacc m hm
      rw [List.foldl_cons] at hm
      refine ih _ ?_ m hm
      intro m' hm'
      split at hm'
      · exact hacc m' hm'
      · split at hm'
        next hc =>
            rcases List.mem_append.mp hm' with h | h
            · exact hacc m' h
            · rcases List.mem_singleton.mp h with rfl
              have := (Bool.and_eq_true _ _).mp hc
              exact of_decide_eq_true this.2
        next => exact hacc m' hm'

/-- C6: every match of a tree scan and every match of a global-cache scan
    has size at least the `min_size` threshold (whose default argument is
    the 1 MiB of the source); pattern-matching entries below the threshold
    are omitted. -/
theorem claim_C6_size_threshold :
    (∀ (fs : FS) (fuel : Nat) (root : FsPath)
       (categories : Option (List String)) (max_depth : Option Nat)
       (min_size : Nat),
       ∀ m ∈ scan_dir fs fuel root categories max_depth min_size,
         min_size ≤ m.size) ∧
    (∀ (fs : FS) (globals : List (String × Option FsPath)) (min_size : Nat),
       ∀ m ∈ scan_global fs globals min_size, min_size ≤ m.size) := by
  constructor
  · intro fs fuel root categories max_depth min_size m hm
    obtain ⟨Δ, hf, _, _, _, hsz, _, _⟩ :=
      scanGo_adds fs categories max_depth min_size (fs.resolve root).length fuel
        (fs.resolve root) ⟨[], []⟩
    have hmem : m ∈ Δ := by
      have := mem_scan_dir.mp hm
      rw [hf] at this
      simpa using this
    exact hsz m hmem
  · intro fs globals min_size m hm
    have hm' : m ∈ globals.foldl
        (fun acc g =>
          match g.2 with
          | none => acc
          | some p =>
              if fs.existsp p && min_size ≤ fs.size p then
                acc ++ [⟨p, "global", g.1, fs.size p⟩]
              else acc)
        [] := by
      have := (List.perm_insertionSort
        (fun a b : Match => b.size ≤ a.size) _).mem_iff.mp hm
      exact this
    exact scan_global_aux fs min_size globals [] (by simp) m hm'

/-- A plain project tree `r/proj/node_modules` (5 MB), no aliases. -/
def fsLin : FS where
  existsp := fun p =>
    p ∈ ([["r"], ["r", "proj"], ["r", "proj", "node_modules"]] : List FsPath)
  isDir := fun p => p ∈ ([["r"], ["r", "proj"]] : List FsPath)
  children := fun p =>
    if p = ["r"] then some ["proj"]
    else if p = ["r", "proj"] then some ["node_modules"]
    else some []
  size := fun p => if pathName p = "node_modules" then 5000000 else 0
  resolve := fun p => p

/-- One global cache at `h/.npm` (7 MB). -/
def fsGlob : FS where
  existsp := fun p => p = ["h", ".npm"]
  isDir := fun _ => true
  children := fun _ => some []
  size := fun p => if p = ["h", ".npm"] then 7000000 else 0
  resolve := fun p => p

theorem claim_C5_witness :
    (⟨["r", "proj", "node_modules"], "node", "node_modules", 5000000⟩ : Match) ∈
      scan_dir fsLin 10 ["r"] ∧
    fsLin.resolve ["r"] <+: (["r", "proj"] : FsPath) ∧
    (["r", "proj"] : FsPath) <+:
      (⟨["r", "proj", "node_modules"], "node", "node_modules", 5000000⟩ : Match).path ∧
    (["r", "proj"] : FsPath) ≠ fsLin.resolve ["r"] ∧
    (["r", "proj"] : FsPath) ≠
      (⟨["r", "proj", "node_modules"], "node", "node_modules", 5000000⟩ : Match).path ∧
    catalogFind none (pathName ["r", "proj"]) = none :=
  ⟨by decide, by decide, by decide, by decide, by decide,
    claim_C5_short_circuit fsLin 10 ["r"] none none (1024*1024)
      ⟨["r", "proj", "node_modules"], "node", "node_modules", 5000000⟩
      (by decide) ["r", "proj"] (by decide) (by decide) (by decide) (by decide)⟩

theorem claim_C6_witness :
    ((⟨["r", "proj", "node_modules"], "node", "node_modules", 5000000⟩ : Match) ∈
      scan_dir fsLin 10 ["r"] ∧
     (1024 * 1024 : Nat) ≤
       (⟨["r", "proj", "node_modules"], "node", "node_modules", 5000000⟩ : Match).size) ∧
    ((⟨["h", ".npm"], "global", "npm", 7000000⟩ : Match) ∈
      scan_global fsGlob [("npm", some ["h", ".npm"])] ∧
     (1024 * 1024 : Nat) ≤
       (⟨["h", ".npm"], "global", "npm", 7000000⟩ : Match).size) :=
  ⟨⟨by decide,
    claim_C6_size_threshold.1 fsLin 10 ["r"] none none (1024*1024)
      ⟨["r", "proj", "node_modules"], "node", "node_modules", 5000000⟩ (by decide)⟩,
   ⟨by decide,
    claim_C6_size_threshold.2 fsGlob [("npm", some ["h", ".npm"])] (1024*1024)
      ⟨["h", ".npm"], "global", "npm", 7000000⟩ (by decide)⟩⟩

end CacheWiped
